import Mathlib

/-!
Verification of the MiGBox SFTP server (`MiGBox/sftp/server.py`) against its
design specification.

The repository source under scrutiny is the dispatcher `SFTPServer._process`
and the authentication helpers of class `Server`.  The delta-synchronization
engines (`MiGBox.sync.delta`: `blockchecksums`, `delta`, `patch`), the path
resolution helper (`SFTPServerInterface._get_path`) and the command-tag
constants (`MiGBox.sftp.common`) are imported by the server but their modules
are not part of the source tree; those parts are modelled from the
specification, as marked in their doc comments.  Bytes are modelled as natural
numbers, file contents as lists of bytes.
-/

abbrev Byte := Nat

/-- A per-block signature: block index, cheap rolling checksum, strong hash. -/
structure BlockSig where
  index : Nat
  weak : Nat
  strong : List Byte
deriving DecidableEq, Repr

/-- A delta instruction: reuse a block of the base file, or insert bytes. -/
inductive DeltaOp where
  | copy (blockIndex : Nat)
  | literal (data : List Byte)
deriving DecidableEq, Repr

/-- The error kinds of the design: I/O failure, malformed payload or path
escaping the root, and a delta referencing an out-of-range block. -/
inductive Err where
  | ioError
  | protocolError
  | algorithmError
deriving DecidableEq, Repr

/-- Number of blocks of a file of length `len` at block size `B`:
`ceil (len / B)`. -/
def numBlocks (len B : Nat) : Nat := (len + B - 1) / B

/-- Bytes of block `i` of `base`, clipped to the file length for the final
block. -/
def blockBytes (base : List Byte) (B i : Nat) : List Byte :=
  (base.drop (i * B)).take B

/-- Modelled from the spec: the weak rolling checksum of
`MiGBox.sync.delta` (module absent from the source tree); an Adler-style
additive checksum reduced modulo 2^16. -/
def weakSum (l : List Byte) : Nat := (l.foldl (fun a b => a + b) 0) % 65536

/-- Modelled from the spec: `blockchecksums` of `MiGBox.sync.delta` (module
absent from the source tree).  Reads the content in non-overlapping chunks of
`B` bytes (final chunk may be shorter) and records, per chunk, its 0-based
index, weak checksum and strong hash.  The strong hash is modelled as the
chunk content itself (a perfectly collision-resistant digest, as the spec
allows any collision-resistant choice). -/
def computeSignatures (content : List Byte) (B : Nat) : List BlockSig :=
  (List.range (numBlocks content.length B)).map fun i =>
    { index := i, weak := weakSum (blockBytes content B i),
      strong := blockBytes content B i }

/-- First signature (ascending block index) whose weak checksum matches the
window and whose strong hash confirms the match. -/
def findMatch (sigs : List BlockSig) (window : List Byte) : Option BlockSig :=
  sigs.find? fun s => s.weak == weakSum window && s.strong == window

/-- Flush accumulated literal bytes as a single `literal` op (nothing if no
bytes are pending). -/
def flushPending (pending : List Byte) : List DeltaOp :=
  if pending.isEmpty then [] else [DeltaOp.literal pending]

/-- Modelled from the spec: the rolling-window scan of `delta` of
`MiGBox.sync.delta` (module absent from the source tree).  At each position,
on a confirmed block match emit a `copy` and skip a whole block; otherwise
accumulate one literal byte and shift by one.  Trailing literals are flushed
at end of input.  The fuel argument makes the recursion structural; the
caller supplies fuel equal to the input length, which is exactly enough for
the scan to run to completion. -/
def deltaScanAux (B : Nat) (sigs : List BlockSig) :
    Nat → List Byte → List Byte → List DeltaOp
  | _, [], pending => flushPending pending
  | 0, rem, pending => flushPending (pending ++ rem)
  | fuel + 1, b :: rest, pending =>
    match findMatch sigs ((b :: rest).take B) with
    | some s =>
        flushPending pending ++
          DeltaOp.copy s.index :: deltaScanAux B sigs fuel (rest.drop (B - 1)) []
    | none => deltaScanAux B sigs fuel rest (pending ++ [b])

/-- Modelled from the spec: `delta` of `MiGBox.sync.delta` (module absent
from the source tree): express `localContent` as copy/literal operations over
the blocks described by `sigs`. -/
def computeDelta (localContent : List Byte) (sigs : List BlockSig) (B : Nat) :
    List DeltaOp :=
  deltaScanAux B sigs localContent.length localContent []

/-- Modelled from the spec: the reconstruction step of `patch` of
`MiGBox.sync.delta` (module absent from the source tree).  A `copy i` whose
index is out of range is a malformed delta and is rejected. -/
def applyPatch (base : List Byte) (ops : List DeltaOp) (B : Nat) :
    Except Err (List Byte) :=
  match ops with
  | [] => Except.ok []
  | DeltaOp.copy i :: rest =>
      if i < numBlocks base.length B then
        (applyPatch base rest B).map (fun r => blockBytes base B i ++ r)
      else Except.error Err.algorithmError
  | DeltaOp.literal d :: rest =>
      (applyPatch base rest B).map (fun r => d ++ r)

theorem applyPatch_flush (base : List Byte) (B : Nat) (p : List Byte) :
    applyPatch base (flushPending p) B = Except.ok p := by
  cases p with
  | nil => simp [flushPending, applyPatch]
  | cons a l => simp [flushPending, applyPatch, Except.map]

theorem applyPatch_append (base : List Byte) (B : Nat) (xs ys : List DeltaOp) :
    applyPatch base (xs ++ ys) B =
      (applyPatch base xs B).bind
        (fun u => (applyPatch base ys B).map (fun v => u ++ v)) := by
  induction xs with
  | nil =>
    cases h : applyPatch base ys B <;>
      simp [applyPatch, Except.bind, Except.map, h]
  | cons op rest ih =>
    cases op with
    | copy i =>
      by_cases hi : i < numBlocks base.length B
      · simp only [List.cons_append, applyPatch, if_pos hi, ih]
        cases h1 : applyPatch base rest B <;> cases h2 : applyPatch base ys B <;>
          simp [ih, h1, h2, Except.bind, Except.map, List.append_assoc]
      · simp only [List.cons_append, applyPatch, if_neg hi]
        rfl
    | literal d =>
      simp only [List.cons_append, applyPatch, ih]
      cases h1 : applyPatch base rest B <;> cases h2 : applyPatch base ys B <;>
        simp [ih, h1, h2, Except.bind, Except.map, List.append_assoc]

theorem findMatch_some {sigs : List BlockSig} {window : List Byte}
    {s : BlockSig} (h : findMatch sigs window = some s) :
    s ∈ sigs ∧ s.strong = window := by
  unfold findMatch at h
  have h1 := List.mem_of_find?_eq_some h
  have h2 := List.find?_some h
  simp only [Bool.and_eq_true, beq_iff_eq] at h2
  exact ⟨h1, h2.2⟩

theorem computeSignatures_mem {content : List Byte} {B : Nat} {s : BlockSig}
    (h : s ∈ computeSignatures content B) :
    s.index < numBlocks content.length B ∧
      s.strong = blockBytes content B s.index := by
  unfold computeSignatures at h
  rw [List.mem_map] at h
  obtain ⟨i, hi, rfl⟩ := h
  rw [List.mem_range] at hi
  exact ⟨hi, rfl⟩

theorem take_cons_drop (b : Byte) (rest : List Byte) (B : Nat) (hB : 0 < B) :
    (b :: rest).take B ++ rest.drop (B - 1) = b :: rest := by
  cases B with
  | zero => exact absurd hB (lt_irrefl 0)
  | succ k =>
    simp only [List.take_succ_cons, Nat.succ_sub_one, List.cons_append,
      List.take_append_drop]

theorem applyPatch_deltaScanAux (base : List Byte) (B : Nat) (hB : 0 < B)
    (sigs : List BlockSig)
    (hs : ∀ s ∈ sigs, s.index < numBlocks base.length B ∧
      s.strong = blockBytes base B s.index) :
    ∀ fuel rem pending,
      applyPatch base (deltaScanAux B sigs fuel rem pending) B =
        Except.ok (pending ++ rem) := by
  intro fuel
  induction fuel with
  | zero =>
    intro rem pending
    cases rem with
    | nil => simp [deltaScanAux, applyPatch_flush]
    | cons b rest => simp [deltaScanAux, applyPatch_flush]
  | succ n ih =>
    intro rem pending
    cases rem with
    | nil => simp [deltaScanAux, applyPatch_flush]
    | cons b rest =>
      cases hfm : findMatch sigs ((b :: rest).take B) with
      | none =>
        simp only [deltaScanAux, hfm]
        rw [ih]
        simp
      | some s =>
        obtain ⟨hmem, hwin⟩ := findMatch_some hfm
        obtain ⟨hidx, hstr⟩ := hs s hmem
        simp only [deltaScanAux, hfm]
        rw [applyPatch_append, applyPatch_flush]
        have htail :
            applyPatch base
              (DeltaOp.copy s.index ::
                deltaScanAux B sigs n (rest.drop (B - 1)) []) B =
            Except.ok ((b :: rest).take B ++ rest.drop (B - 1)) := by
          simp only [applyPatch, if_pos hidx]
          rw [ih]
          simp only [Except.map, List.nil_append]
          rw [← hstr, hwin]
        rw [htail]
        simp only [Except.bind, Except.map]
        rw [take_cons_drop b rest B hB]

/-- C1: for any base content, target content and positive block size, applying
the patch computed from the delta of the target against the base's signatures
reconstructs the target exactly; in particular the pipeline is an exact
round-trip when base and target coincide. -/
theorem c1_roundtrip (base target : List Byte) (B : Nat) (hB : 0 < B) :
    applyPatch base (computeDelta target (computeSignatures base B) B) B =
      Except.ok target := by
  unfold computeDelta
  have h := applyPatch_deltaScanAux base B hB (computeSignatures base B)
    (fun s hs => computeSignatures_mem hs) target.length target []
  simpa using h

/-- Witness for C1 at a concrete pair of contents and block size 2. -/
theorem c1_roundtrip_witness :
    0 < 2 ∧
      applyPatch [0, 1, 2, 3, 4]
        (computeDelta [2, 3, 9, 0, 1] (computeSignatures [0, 1, 2, 3, 4] 2) 2)
        2 = Except.ok [2, 3, 9, 0, 1] :=
  ⟨by decide, c1_roundtrip [0, 1, 2, 3, 4] [2, 3, 9, 0, 1] 2 (by decide)⟩

/-- A path segment of a request path: current directory, parent directory, or
a named component. -/
inductive Seg where
  | dot
  | dotdot
  | name (s : String)
deriving DecidableEq, Repr

/-- Resolve request-path segments over a stack of already-entered directory
names (most recent first).  Stepping above the start of the stack means the
path escapes the root and is rejected with a protocol error. -/
def resolveSegs (stack : List String) : List Seg → Except Err (List String)
  | [] => Except.ok stack
  | Seg.dot :: rest => resolveSegs stack rest
  | Seg.dotdot :: rest =>
    match stack with
    | [] => Except.error Err.protocolError
    | _ :: stack2 => resolveSegs stack2 rest
  | Seg.name s :: rest => resolveSegs (s :: stack) rest

/-- Modelled from the spec: `SFTPServerInterface._get_path` (module absent
from the source tree).  Every request path is resolved relative to the
connection's configured root; a path that escapes the root is rejected with a
`protocolError` and is never clamped into the root. -/
def getPath (root : List String) (p : List Seg) : Except Err (List String) :=
  (resolveSegs [] p).map fun stack => root ++ stack.reverse

/-- Depth contribution of one segment: a named component descends, `..`
ascends, `.` is neutral. -/
def segDepth : Seg → Int
  | Seg.dot => 0
  | Seg.dotdot => -1
  | Seg.name _ => 1

/-- Declarative escape check: starting at depth `d`, does some prefix of the
segment list reach a negative depth? -/
def escFrom (d : Int) : List Seg → Bool
  | [] => false
  | s :: rest => decide (d + segDepth s < 0) || escFrom (d + segDepth s) rest

/-- A request path escapes the root when some prefix of its segments ascends
above the root directory. -/
def pathEscapes (p : List Seg) : Bool := escFrom 0 p

theorem resolveSegs_spec (p : List Seg) : ∀ stack : List String,
    (escFrom (stack.length : Int) p = true →
      resolveSegs stack p = Except.error Err.protocolError) ∧
    (escFrom (stack.length : Int) p = false →
      ∃ st2, resolveSegs stack p = Except.ok st2) := by
  induction p with
  | nil =>
    intro stack
    exact ⟨fun h => by simp [escFrom] at h, fun _ => ⟨stack, rfl⟩⟩
  | cons s rest ih =>
    intro stack
    cases s with
    | dot =>
      have hd : ((stack.length : Int) + segDepth Seg.dot < 0) = False := by
        simp [segDepth]
      constructor
      · intro h
        simp only [escFrom, hd, decide_False, Bool.false_or, segDepth,
          Int.add_zero] at h
        simpa [resolveSegs] using (ih stack).1 h
      · intro h
        simp only [escFrom, hd, decide_False, Bool.false_or, segDepth,
          Int.add_zero] at h
        simpa [resolveSegs] using (ih stack).2 h
    | name nm =>
      have hd : ¬ ((stack.length : Int) + segDepth (Seg.name nm) < 0) := by
        simp [segDepth]
        omega
      have hlen : ((stack.length : Int) + segDepth (Seg.name nm)) =
          ((nm :: stack).length : Int) := by
        simp [segDepth]
      constructor
      · intro h
        simp only [escFrom, decide_eq_true_eq, Bool.or_eq_true] at h
        rcases h with h | h
        · exact absurd h hd
        · rw [hlen] at h
          simpa [resolveSegs] using (ih (nm :: stack)).1 h
      · intro h
        simp only [escFrom, Bool.or_eq_false_iff] at h
        rw [hlen] at h
        simpa [resolveSegs] using (ih (nm :: stack)).2 h.2
    | dotdot =>
      cases stack with
      | nil =>
        constructor
        · intro _
          rfl
        · intro h
          simp [escFrom, segDepth] at h
      | cons x stack2 =>
        have hd : ¬ (((x :: stack2).length : Int) + segDepth Seg.dotdot < 0) := by
          simp [segDepth]
        have hlen : (((x :: stack2).length : Int) + segDepth Seg.dotdot) =
            (stack2.length : Int) := by
          simp [segDepth]
        constructor
        · intro h
          simp only [escFrom, decide_eq_true_eq, Bool.or_eq_true] at h
          rcases h with h | h
          · exact absurd h hd
          · rw [hlen] at h
            simpa [resolveSegs] using (ih stack2).1 h
        · intro h
          simp only [escFrom, Bool.or_eq_false_iff] at h
          rw [hlen] at h
          simpa [resolveSegs] using (ih stack2).2 h.2

theorem getPath_escape {root : List String} {p : List Seg}
    (h : pathEscapes p = true) : getPath root p = Except.error Err.protocolError := by
  unfold getPath
  have hr := (resolveSegs_spec p []).1 (by simpa [pathEscapes] using h)
  rw [hr]
  rfl

theorem getPath_ok_not_escape {root : List String} {p : List Seg}
    {rp : List String} (h : getPath root p = Except.ok rp) :
    pathEscapes p = false := by
  by_contra hne
  have ht : pathEscapes p = true := by
    cases hp : pathEscapes p
    · exact absurd hp hne
    · rfl
  rw [getPath_escape ht] at h
  exact Except.noConfusion h

/-- The empty byte string. -/
def emptyS : String := ""

/-- A single space, the field separator of the authorized-key file format. -/
def spaceS : String := " "

/-- A wire string field of a request message, classified by what it decodes
to: a path, a JSON signature list, a JSON delta-op list, or bytes that are
none of these (e.g. text that is not valid JSON). -/
inductive WStr where
  | ofPath (p : List Seg)
  | ofSigs (sigs : List BlockSig)
  | ofOps (ops : List DeltaOp)
  | junk (s : String)
deriving DecidableEq, Repr

/-- Interpret a wire string as a request path (every byte string denotes some
path; non-path payloads are never fed to path positions by the protocol). -/
def toSegs : WStr → List Seg
  | WStr.ofPath p => p
  | _ => []

/-- Decoding (`json.loads`) of a wire string expected to encode a `SignatureSet`;
`none` models the decoder raising on anything else. -/
def decodeSigs : WStr → Option (List BlockSig)
  | WStr.ofSigs l => some l
  | _ => none

/-- Decoding (`json.loads`) of a wire string expected to encode a `DeltaOp` sequence;
`none` models the decoder raising on anything else. -/
def decodeOps : WStr → Option (List DeltaOp)
  | WStr.ofOps l => some l
  | _ => none

/-- An incoming request message: the sequence of string fields after the
request number, read in order by `msg.get_string()`. -/
structure Msg where
  strs : List WStr
deriving DecidableEq, Repr

/-- The call `msg.get_string()`: return the next string field and the advanced
message. -/
def Msg.getString (m : Msg) : WStr × Msg :=
  (m.strs.headD (WStr.junk emptyS), Msg.mk m.strs.tail)

/-- Modelled from the spec: the custom command tag `CMD_BLOCKCHK` of
`MiGBox.sftp.common` (module absent from the source tree); the exact numeric
value is unknown, only that the three custom tags are distinct one-byte codes
disjoint from the standard ones. -/
def CMD_BLOCKCHK : Nat := 200

/-- Modelled from the spec: the custom command tag `CMD_DELTA` of
`MiGBox.sftp.common` (module absent from the source tree). -/
def CMD_DELTA : Nat := 201

/-- Modelled from the spec: the custom command tag `CMD_PATCH` of
`MiGBox.sftp.common` (module absent from the source tree). -/
def CMD_PATCH : Nat := 202

/-- The constant `paramiko.OPEN_SUCCEEDED`. -/
def OPEN_SUCCEEDED : Nat := 0

/-- The constant `paramiko.AUTH_SUCCESSFUL`. -/
def AUTH_SUCCESSFUL : Nat := 0

/-- The constant `paramiko.AUTH_FAILED`. -/
def AUTH_FAILED : Nat := 2

/-- The per-connection environment of the dispatcher: the configured root
directory (fixed at connection-handler construction), the server's file
contents keyed by resolved path, the block size constant of the delta module,
and the outcome of `self.server.rename(patched, path)` as a function of its
two arguments (the rename itself lives in the external interface layer). -/
structure Env where
  root : List String
  fs : List String → Option (List Byte)
  blockSize : Nat
  renameCode : List String → List Seg → Nat

/-- An observable effect of processing one request: a response packet sent by
`_send_packet`, a status sent by `_send_status`, a file written by the patch
engine, a rename performed by the interface layer, or delegation of the whole
request to `paramiko.SFTPServer._process`. -/
inductive OutEvent where
  | packet (tag reqNum : Nat) (payload : WStr)
  | status (reqNum code : Nat)
  | wroteFile (path : List String) (content : List Byte)
  | renamed (src : List String) (dst : List Seg)
  | delegated (tag reqNum : Nat) (msg : Msg)
deriving DecidableEq, Repr

/-- Suffix used for the temporary file the patch engine writes before the
atomic rename. -/
def tmpSuffix : String := ".tmp"

/-- Modelled from the spec: the temporary path used by `patch`, a sibling of
the target in the same directory. -/
def tempOf (rp : List String) : List String :=
  rp.dropLast ++ [rp.getLastD emptyS ++ tmpSuffix]

/-- The call `blockchecksums(path)`: signatures of the file at the resolved path
`rp`; an unreadable file signals an I/O error. -/
def blockchecksums (env : Env) (rp : List String) : Except Err (List BlockSig) :=
  match env.fs rp with
  | none => Except.error Err.ioError
  | some content => Except.ok (computeSignatures content env.blockSize)

/-- The call `delta(path, bs)`: delta of the file at the resolved path `rp` against
the caller-supplied signatures. -/
def delta (env : Env) (rp : List String) (bs : List BlockSig) :
    Except Err (List DeltaOp) :=
  match env.fs rp with
  | none => Except.error Err.ioError
  | some content => Except.ok (computeDelta content bs env.blockSize)

/-- The call `patch(path, d)`: reconstruct the file at the resolved path `rp` from the
delta ops and report the temporary path the result is written to, together
with the reconstructed content. -/
def patch (env : Env) (rp : List String) (ops : List DeltaOp) :
    Except Err (List String × List Byte) :=
  match env.fs rp with
  | none => Except.error Err.ioError
  | some base =>
    match applyPatch base ops env.blockSize with
    | Except.error e => Except.error e
    | Except.ok newContent => Except.ok (tempOf rp, newContent)

/-- The dispatcher `SFTPServer._process(t, request_number, msg)`.  A
`BLOCKCHK` request reads the path, resolves it, computes signatures and sends
them back in a packet tagged `t` whose body starts with the request number.
A `DELTA` request reads path and payload, decodes the payload (the decoder
raises on malformed input), resolves the path, computes the delta and sends
it back the same way.  A `PATCH` request reads path and payload, decodes the
delta ops, resolves the path, patches the server's file and responds with the
status of renaming the temporary file onto the original request path.  Any
other tag is delegated verbatim to the base `paramiko.SFTPServer._process`.
The method installs no exception handler, so any error raised on the way
propagates out of the dispatcher; this is modelled by the `Except.error`
results, under which no response event is produced. -/
def process (env : Env) (t reqNum : Nat) (msg : Msg) :
    Except Err (List OutEvent) :=
  if t = CMD_BLOCKCHK then
    match getPath env.root (toSegs msg.getString.1) with
    | Except.error e => Except.error e
    | Except.ok rp =>
      match blockchecksums env rp with
      | Except.error e => Except.error e
      | Except.ok bs => Except.ok [OutEvent.packet t reqNum (WStr.ofSigs bs)]
  else if t = CMD_DELTA then
    match decodeSigs msg.getString.2.getString.1 with
    | none => Except.error Err.protocolError
    | some bs =>
      match getPath env.root (toSegs msg.getString.1) with
      | Except.error e => Except.error e
      | Except.ok rp =>
        match delta env rp bs with
        | Except.error e => Except.error e
        | Except.ok d => Except.ok [OutEvent.packet t reqNum (WStr.ofOps d)]
  else if t = CMD_PATCH then
    match decodeOps msg.getString.2.getString.1 with
    | none => Except.error Err.protocolError
    | some d =>
      match getPath env.root (toSegs msg.getString.1) with
      | Except.error e => Except.error e
      | Except.ok rp =>
        match patch env rp d with
        | Except.error e => Except.error e
        | Except.ok pr =>
          Except.ok [OutEvent.wroteFile pr.1 pr.2,
            OutEvent.renamed pr.1 (toSegs msg.getString.1),
            OutEvent.status reqNum (env.renameCode pr.1 (toSegs msg.getString.1))]
  else
    Except.ok [OutEvent.delegated t reqNum msg]

/-- The request number a sent event echoes, if the event is a send. -/
def eventReqNum : OutEvent → Option Nat
  | OutEvent.packet _ r _ => some r
  | OutEvent.status r _ => some r
  | OutEvent.delegated _ r _ => some r
  | _ => none

/-- Whether an event is a message sent back on the channel (as opposed to a
filesystem effect). -/
def isSend : OutEvent → Bool
  | OutEvent.packet _ _ _ => true
  | OutEvent.status _ _ => true
  | OutEvent.delegated _ _ _ => true
  | _ => false

/-- The sends among a list of events. -/
def sends (evs : List OutEvent) : List OutEvent := evs.filter isSend

/-- One dispatcher step in state-passing form: the method reads the
connection state but contains no assignment to it, so the state it hands back
is the state it received. -/
def processSt (env : Env) (t reqNum : Nat) (msg : Msg) :
    Env × Except Err (List OutEvent) :=
  (env, process env t reqNum msg)

/-- Run a sequence of requests through the dispatcher, threading the
connection state. -/
def runAll (env : Env) : List (Nat × Nat × Msg) → Env
  | [] => env
  | (t, n, m) :: rest => runAll (processSt env t n m).1 rest

/-- The connection states each request of a sequence is processed in. -/
def statesOf (env : Env) : List (Nat × Nat × Msg) → List Env
  | [] => []
  | (t, n, m) :: rest => env :: statesOf (processSt env t n m).1 rest

/-- An RSA public key as compared by `paramiko`; `data` stands for the
decoded key material. -/
structure RSAKey where
  data : String
deriving DecidableEq, Repr

/-- The `Server` object of the source: holds the root path and the path of
the user's public key file, both set in `__init__`. -/
structure Server where
  root : List String
  userkey : String
deriving DecidableEq, Repr

/-- The method `Server.check_channel_request(kind, chanid)`: all channel requests are
allowed. -/
def check_channel_request (srv : Server) (kind : String) (chanid : Nat) : Nat :=
  OPEN_SUCCEEDED

/-- The key the userkey file holds: the file format is
`ssh-rsa AAA.... user@somemachine`, the code splits on a space, takes field 1
and feeds its base64 decoding to `paramiko.RSAKey`.  The external base64
decoder and key constructor are abstracted as the `rsaParse` argument. -/
def parseUserKey (rsaParse : String → RSAKey) (fileData : String) : RSAKey :=
  rsaParse ((fileData.splitOn spaceS).getD 1 emptyS)

/-- The method `Server.check_auth_publickey(username, key)`: read the configured userkey
file (`fsText` abstracts the file system), parse the stored public key from
it and accept exactly when the client's key equals it. -/
def check_auth_publickey (rsaParse : String → RSAKey)
    (fsText : String → String) (srv : Server) (username : String)
    (key : RSAKey) : Nat :=
  let key_data := fsText srv.userkey
  let rsakey := parseUserKey rsaParse key_data
  if key = rsakey then AUTH_SUCCESSFUL else AUTH_FAILED

/-- The method `Server.get_allowed_auths(username)`: only public-key authentication is
advertised. -/
def get_allowed_auths (srv : Server) (username : String) : String :=
  "publickey"

/-- A file name used by the concrete test environments. -/
def fNameS : String := "f"

/-- A concrete environment with an empty file system, used as input for
counterexamples and witnesses. -/
def env0 : Env where
  root := []
  fs := fun _ => none
  blockSize := 4
  renameCode := fun _ _ => 0

/-- A concrete environment holding one four-byte file, used as input for
witnesses. -/
def env1 : Env where
  root := []
  fs := fun p => if p = [fNameS] then some [0, 1, 2, 3] else none
  blockSize := 2
  renameCode := fun _ _ => 0

/-- C2 counterexample: a DELTA request whose payload is not a valid
SignatureSet encoding does not produce any failure status response at the
dispatcher boundary: `_process` installs no handler, so the decode error
propagates out of the dispatcher (an `Except.error` result, under which no
response event is sent), contradicting the claim that the error is caught
and converted into a status response. -/
theorem c2_uncaught_counterexample :
    process env0 CMD_DELTA 8 (Msg.mk [WStr.ofPath [], WStr.junk emptyS]) =
      Except.error Err.protocolError := rfl

/-- C2 amended: errors raised while handling a request are not caught by the
dispatcher; for every DELTA request whose payload is not a valid SignatureSet
encoding, the protocol error propagates out of `_process` and the dispatcher
itself sends no response (any catching happens in the external host-protocol
loop, outside this component). -/
theorem c2_delta_malformed (env : Env) (reqNum : Nat) (pstr s : WStr)
    (rest : List WStr) (h : decodeSigs s = none) :
    process env CMD_DELTA reqNum (Msg.mk (pstr :: s :: rest)) =
      Except.error Err.protocolError := by
  simp [process, Msg.getString, h, CMD_DELTA, CMD_BLOCKCHK]

/-- Witness for the amended C2 at a concrete malformed request. -/
theorem c2_delta_malformed_witness :
    decodeSigs (WStr.junk emptyS) = none ∧
    process env0 CMD_DELTA 7 (Msg.mk [WStr.ofPath [], WStr.junk emptyS]) =
      Except.error Err.protocolError :=
  ⟨rfl, c2_delta_malformed env0 7 (WStr.ofPath []) (WStr.junk emptyS) [] rfl⟩

/-- C3: a PATCH request resolves its path, decodes the delta ops, patches the
server's own content at the resolved path into a temporary file, renames the
temporary file over the original path named in the request, and responds with
a status carrying exactly the outcome of that rename. -/
theorem c3_patch_flow (env : Env) (reqNum : Nat) (pstr : WStr)
    (rest : List WStr) (d : List DeltaOp) (rp : List String)
    (base newC : List Byte)
    (hres : getPath env.root (toSegs pstr) = Except.ok rp)
    (hfs : env.fs rp = some base)
    (happ : applyPatch base d env.blockSize = Except.ok newC) :
    process env CMD_PATCH reqNum (Msg.mk (pstr :: WStr.ofOps d :: rest)) =
      Except.ok [OutEvent.wroteFile (tempOf rp) newC,
        OutEvent.renamed (tempOf rp) (toSegs pstr),
        OutEvent.status reqNum (env.renameCode (tempOf rp) (toSegs pstr))] := by
  simp [process, Msg.getString, decodeOps, patch, hres, hfs, happ,
    CMD_PATCH, CMD_BLOCKCHK, CMD_DELTA]

/-- Witness for C3 at a concrete PATCH request against a four-byte file. -/
theorem c3_patch_flow_witness :
    getPath env1.root (toSegs (WStr.ofPath [Seg.name fNameS])) =
        Except.ok [fNameS] ∧
    env1.fs [fNameS] = some [0, 1, 2, 3] ∧
    applyPatch [0, 1, 2, 3] [DeltaOp.copy 0, DeltaOp.copy 1] env1.blockSize =
        Except.ok [0, 1, 2, 3] ∧
    process env1 CMD_PATCH 3
        (Msg.mk [WStr.ofPath [Seg.name fNameS],
          WStr.ofOps [DeltaOp.copy 0, DeltaOp.copy 1]]) =
      Except.ok [OutEvent.wroteFile (tempOf [fNameS]) [0, 1, 2, 3],
        OutEvent.renamed (tempOf [fNameS]) (toSegs (WStr.ofPath [Seg.name fNameS])),
        OutEvent.status 3 (env1.renameCode (tempOf [fNameS])
          (toSegs (WStr.ofPath [Seg.name fNameS])))] :=
  ⟨rfl, rfl, rfl,
    c3_patch_flow env1 3 (WStr.ofPath [Seg.name fNameS]) []
      [DeltaOp.copy 0, DeltaOp.copy 1] [fNameS] [0, 1, 2, 3] [0, 1, 2, 3]
      rfl rfl rfl⟩

/-- C4: a request path of any of the three custom commands that escapes the
configured root is rejected by path resolution with a protocol error -- the
dispatcher yields that error and sends nothing -- and resolution never
silently clamps an escaping path (every successfully resolved path is
non-escaping). -/
theorem c4_escape_rejected (env : Env) (t reqNum : Nat) (msg : Msg)
    (ht : t = CMD_BLOCKCHK ∨ t = CMD_DELTA ∨ t = CMD_PATCH)
    (hesc : pathEscapes (toSegs msg.getString.1) = true) :
    process env t reqNum msg = Except.error Err.protocolError ∧
    ∀ (rt : List String) (p : List Seg) (rp : List String),
      getPath rt p = Except.ok rp → pathEscapes p = false := by
  refine ⟨?_, fun rt p rp h => getPath_ok_not_escape h⟩
  have hg : getPath env.root (toSegs msg.getString.1) =
      Except.error Err.protocolError := getPath_escape hesc
  rcases ht with rfl | rfl | rfl
  · simp [process, hg]
  · cases hds : decodeSigs msg.getString.2.getString.1 with
    | none => simp [process, hds, CMD_DELTA, CMD_BLOCKCHK]
    | some bs => simp [process, hds, hg, CMD_DELTA, CMD_BLOCKCHK]
  · cases hds : decodeOps msg.getString.2.getString.1 with
    | none => simp [process, hds, CMD_PATCH, CMD_BLOCKCHK, CMD_DELTA]
    | some d => simp [process, hds, hg, CMD_PATCH, CMD_BLOCKCHK, CMD_DELTA]

/-- Witness for C4 at a concrete traversal request. -/
theorem c4_escape_rejected_witness :
    (CMD_BLOCKCHK = CMD_BLOCKCHK ∨ CMD_BLOCKCHK = CMD_DELTA ∨
      CMD_BLOCKCHK = CMD_PATCH) ∧
    pathEscapes (toSegs (Msg.mk [WStr.ofPath [Seg.dotdot]]).getString.1) = true ∧
    (process env0 CMD_BLOCKCHK 2 (Msg.mk [WStr.ofPath [Seg.dotdot]]) =
        Except.error Err.protocolError ∧
      ∀ (rt : List String) (p : List Seg) (rp : List String),
        getPath rt p = Except.ok rp → pathEscapes p = false) :=
  ⟨Or.inl rfl, by decide,
    c4_escape_rejected env0 CMD_BLOCKCHK 2 (Msg.mk [WStr.ofPath [Seg.dotdot]])
      (Or.inl rfl) (by decide)⟩

/-- C5: any request whose command tag is none of the three custom codes is
delegated verbatim -- same tag, same request number, same message -- to the
base `paramiko.SFTPServer` handling. -/
theorem c5_fallback (env : Env) (t reqNum : Nat) (msg : Msg)
    (h1 : t ≠ CMD_BLOCKCHK) (h2 : t ≠ CMD_DELTA) (h3 : t ≠ CMD_PATCH) :
    process env t reqNum msg = Except.ok [OutEvent.delegated t reqNum msg] := by
  simp [process, h1, h2, h3]

/-- Witness for C5 at a standard (non-custom) command tag. -/
theorem c5_fallback_witness :
    ((5 : Nat) ≠ CMD_BLOCKCHK ∧ (5 : Nat) ≠ CMD_DELTA ∧
      (5 : Nat) ≠ CMD_PATCH) ∧
    process env0 5 1 (Msg.mk []) =
      Except.ok [OutEvent.delegated 5 1 (Msg.mk [])] :=
  ⟨⟨by decide, by decide, by decide⟩,
    c5_fallback env0 5 1 (Msg.mk []) (by decide) (by decide) (by decide)⟩

/-- C7: the authorization decision is exactly a public-key match: the client
key is accepted if and only if it equals the RSA key parsed from the
configured userkey file, is rejected otherwise, and the only advertised
authentication method is publickey. -/
theorem c7_publickey_auth (rsaParse : String → RSAKey)
    (fsText : String → String) (srv : Server) (username : String)
    (key : RSAKey) :
    (check_auth_publickey rsaParse fsText srv username key = AUTH_SUCCESSFUL ↔
      key = parseUserKey rsaParse (fsText srv.userkey)) ∧
    (check_auth_publickey rsaParse fsText srv username key = AUTH_FAILED ↔
      key ≠ parseUserKey rsaParse (fsText srv.userkey)) ∧
    get_allowed_auths srv username = "publickey" := by
  unfold check_auth_publickey
  by_cases h : key = parseUserKey rsaParse (fsText srv.userkey) <;>
    simp [h, AUTH_SUCCESSFUL, AUTH_FAILED, get_allowed_auths]

/-- C9: every channel request is granted -- `check_channel_request` returns
`OPEN_SUCCEEDED` for every kind and channel id. -/
theorem c9_channel_always_open (srv : Server) (kind : String) (chanid : Nat) :
    check_channel_request srv kind chanid = OPEN_SUCCEEDED := rfl

theorem blockchecksums_ok {env : Env} {rp : List String} {bs : List BlockSig}
    (h : blockchecksums env rp = Except.ok bs) :
    ∃ content, env.fs rp = some content ∧
      bs = computeSignatures content env.blockSize := by
  unfold blockchecksums at h
  split at h
  next heq => exact Except.noConfusion h
  next content heq =>
    simp only [Except.ok.injEq] at h
    exact ⟨content, heq, h.symm⟩

theorem patch_ok_inv {env : Env} {rp : List String} {ops : List DeltaOp}
    {pr : List String × List Byte} (h : patch env rp ops = Except.ok pr) :
    ∃ base newC, env.fs rp = some base ∧
      applyPatch base ops env.blockSize = Except.ok newC ∧
      pr = (tempOf rp, newC) := by
  unfold patch at h
  split at h
  next heq => exact Except.noConfusion h
  next base heq =>
    split at h
    next e heq2 => exact Except.noConfusion h
    next newC heq2 =>
      simp only [Except.ok.injEq] at h
      exact ⟨base, newC, heq, heq2, h.symm⟩

theorem process_blockchk_ok {env : Env} {reqNum : Nat} {msg : Msg}
    {evs : List OutEvent}
    (hok : process env CMD_BLOCKCHK reqNum msg = Except.ok evs) :
    ∃ rp content, getPath env.root (toSegs msg.getString.1) = Except.ok rp ∧
      env.fs rp = some content ∧
      evs = [OutEvent.packet CMD_BLOCKCHK reqNum
        (WStr.ofSigs (computeSignatures content env.blockSize))] := by
  unfold process at hok
  rw [if_pos rfl] at hok
  split at hok
  next e heq => exact Except.noConfusion hok
  next rp heq =>
    split at hok
    next e heq2 => exact Except.noConfusion hok
    next bs heq2 =>
      obtain ⟨content, hfs, rfl⟩ := blockchecksums_ok heq2
      simp only [Except.ok.injEq] at hok
      exact ⟨rp, content, heq, hfs, hok.symm⟩

theorem process_delta_ok {env : Env} {reqNum : Nat} {msg : Msg}
    {evs : List OutEvent}
    (hok : process env CMD_DELTA reqNum msg = Except.ok evs) :
    ∃ d, evs = [OutEvent.packet CMD_DELTA reqNum (WStr.ofOps d)] := by
  unfold process at hok
  rw [if_neg (by decide), if_pos rfl] at hok
  split at hok
  next heq => exact Except.noConfusion hok
  next bs heq =>
    split at hok
    next e heq2 => exact Except.noConfusion hok
    next rp heq2 =>
      split at hok
      next e heq3 => exact Except.noConfusion hok
      next dd heq3 =>
        simp only [Except.ok.injEq] at hok
        exact ⟨dd, hok.symm⟩

theorem process_patch_ok {env : Env} {reqNum : Nat} {msg : Msg}
    {evs : List OutEvent}
    (hok : process env CMD_PATCH reqNum msg = Except.ok evs) :
    ∃ rp newC, evs = [OutEvent.wroteFile (tempOf rp) newC,
      OutEvent.renamed (tempOf rp) (toSegs msg.getString.1),
      OutEvent.status reqNum (env.renameCode (tempOf rp) (toSegs msg.getString.1))] := by
  unfold process at hok
  rw [if_neg (by decide), if_neg (by decide), if_pos rfl] at hok
  split at hok
  next heq => exact Except.noConfusion hok
  next d heq =>
    split at hok
    next e heq2 => exact Except.noConfusion hok
    next rp heq2 =>
      split at hok
      next e heq3 => exact Except.noConfusion hok
      next pr heq3 =>
        obtain ⟨base, newC, hfs, hap, rfl⟩ := patch_ok_inv heq3
        simp only [Except.ok.injEq] at hok
        exact ⟨rp, newC, hok.symm⟩

/-- C6: every response the dispatcher sends for the three custom commands
echoes the request number the requester assigned; in particular a successful
BLOCKCHK response is a packet whose body is the request number followed by
the encoded signature set of the file at the resolved path. -/
theorem c6_request_id_echo (env : Env) (t reqNum : Nat) (msg : Msg)
    (evs : List OutEvent)
    (ht : t = CMD_BLOCKCHK ∨ t = CMD_DELTA ∨ t = CMD_PATCH)
    (hok : process env t reqNum msg = Except.ok evs) :
    (∀ e ∈ evs, ∀ r, eventReqNum e = some r → r = reqNum) ∧
    (t = CMD_BLOCKCHK → ∃ rp content,
      getPath env.root (toSegs msg.getString.1) = Except.ok rp ∧
      env.fs rp = some content ∧
      evs = [OutEvent.packet CMD_BLOCKCHK reqNum
        (WStr.ofSigs (computeSignatures content env.blockSize))]) := by
  rcases ht with rfl | rfl | rfl
  · obtain ⟨rp, content, hg, hfs, rfl⟩ := process_blockchk_ok hok
    refine ⟨?_, fun _ => ⟨rp, content, hg, hfs, rfl⟩⟩
    intro e he r hr
    simp only [List.mem_singleton] at he
    subst he
    simp only [eventReqNum, Option.some.injEq] at hr
    exact hr.symm
  · obtain ⟨d, rfl⟩ := process_delta_ok hok
    refine ⟨?_, fun h => absurd h (by decide)⟩
    intro e he r hr
    simp only [List.mem_singleton] at he
    subst he
    simp only [eventReqNum, Option.some.injEq] at hr
    exact hr.symm
  · obtain ⟨rp, newC, rfl⟩ := process_patch_ok hok
    refine ⟨?_, fun h => absurd h (by decide)⟩
    intro e he r hr
    simp only [List.mem_cons, List.mem_singleton, List.not_mem_nil,
      or_false] at he
    rcases he with rfl | rfl | rfl
    · simp [eventReqNum] at hr
    · simp [eventReqNum] at hr
    · simp only [eventReqNum, Option.some.injEq] at hr
      exact hr.symm

/-- Witness for C6 at a concrete successful BLOCKCHK request. -/
theorem c6_request_id_echo_witness :
    (CMD_BLOCKCHK = CMD_BLOCKCHK ∨ CMD_BLOCKCHK = CMD_DELTA ∨
      CMD_BLOCKCHK = CMD_PATCH) ∧
    process env1 CMD_BLOCKCHK 9 (Msg.mk [WStr.ofPath [Seg.name fNameS]]) =
      Except.ok [OutEvent.packet CMD_BLOCKCHK 9
        (WStr.ofSigs (computeSignatures [0, 1, 2, 3] 2))] ∧
    ((∀ e ∈ [OutEvent.packet CMD_BLOCKCHK 9
          (WStr.ofSigs (computeSignatures [0, 1, 2, 3] 2))],
        ∀ r, eventReqNum e = some r → r = 9) ∧
      (CMD_BLOCKCHK = CMD_BLOCKCHK → ∃ rp content,
        getPath env1.root
            (toSegs (Msg.mk [WStr.ofPath [Seg.name fNameS]]).getString.1) =
          Except.ok rp ∧
        env1.fs rp = some content ∧
        [OutEvent.packet CMD_BLOCKCHK 9
            (WStr.ofSigs (computeSignatures [0, 1, 2, 3] 2))] =
          [OutEvent.packet CMD_BLOCKCHK 9
            (WStr.ofSigs (computeSignatures content env1.blockSize))])) :=
  ⟨Or.inl rfl, rfl,
    c6_request_id_echo env1 CMD_BLOCKCHK 9
      (Msg.mk [WStr.ofPath [Seg.name fNameS]])
      [OutEvent.packet CMD_BLOCKCHK 9
        (WStr.ofSigs (computeSignatures [0, 1, 2, 3] 2))]
      (Or.inl rfl) rfl⟩

/-- C8: the connection's root is fixed at construction and read-only: running
any sequence of requests through the dispatcher leaves the root unchanged,
and every request in the sequence is processed in a state carrying that same
root. -/
theorem c8_root_read_only (env : Env) (reqs : List (Nat × Nat × Msg)) :
    (runAll env reqs).root = env.root ∧
    ∀ st ∈ statesOf env reqs, st.root = env.root := by
  induction reqs generalizing env with
  | nil =>
    refine ⟨rfl, ?_⟩
    intro st h
    simp [statesOf] at h
  | cons r rest ih =>
    obtain ⟨t, n, m⟩ := r
    refine ⟨?_, ?_⟩
    · simpa [runAll, processSt] using (ih env).1
    · intro st h
      simp only [statesOf, List.mem_cons] at h
      rcases h with rfl | h
      · rfl
      · exact (ih env).2 st (by simpa [processSt] using h)

/-- Witness for C8 at a concrete two-request run. -/
theorem c8_root_read_only_witness :
    (runAll env1 [(CMD_BLOCKCHK, 1, Msg.mk [WStr.ofPath [Seg.name fNameS]]),
        (CMD_PATCH, 2, Msg.mk [])]).root = env1.root ∧
    ∀ st ∈ statesOf env1
        [(CMD_BLOCKCHK, 1, Msg.mk [WStr.ofPath [Seg.name fNameS]]),
          (CMD_PATCH, 2, Msg.mk [])], st.root = env1.root :=
  c8_root_read_only env1
    [(CMD_BLOCKCHK, 1, Msg.mk [WStr.ofPath [Seg.name fNameS]]),
      (CMD_PATCH, 2, Msg.mk [])]

/-- C10: a successful BLOCKCHK or DELTA request is answered by a packet sent
with the same custom command tag as the request, while a successful PATCH
request is answered by a standard status message. -/
theorem c10_response_tags (env : Env) (t reqNum : Nat) (msg : Msg)
    (evs : List OutEvent)
    (hok : process env t reqNum msg = Except.ok evs) :
    ((t = CMD_BLOCKCHK ∨ t = CMD_DELTA) →
      ∃ payload, evs = [OutEvent.packet t reqNum payload]) ∧
    (t = CMD_PATCH → ∃ code, sends evs = [OutEvent.status reqNum code]) := by
  constructor
  · rintro (rfl | rfl)
    · obtain ⟨rp, content, hg, hfs, rfl⟩ := process_blockchk_ok hok
      exact ⟨_, rfl⟩
    · obtain ⟨d, rfl⟩ := process_delta_ok hok
      exact ⟨_, rfl⟩
  · rintro rfl
    obtain ⟨rp, newC, rfl⟩ := process_patch_ok hok
    exact ⟨env.renameCode (tempOf rp) (toSegs msg.getString.1), rfl⟩

/-- Witness for C10 at a concrete successful DELTA request. -/
theorem c10_response_tags_witness :
    process env1 CMD_DELTA 12
        (Msg.mk [WStr.ofPath [Seg.name fNameS], WStr.ofSigs []]) =
      Except.ok [OutEvent.packet CMD_DELTA 12
        (WStr.ofOps (computeDelta [0, 1, 2, 3] [] 2))] ∧
    (((CMD_DELTA = CMD_BLOCKCHK ∨ CMD_DELTA = CMD_DELTA) →
      ∃ payload, [OutEvent.packet CMD_DELTA 12
          (WStr.ofOps (computeDelta [0, 1, 2, 3] [] 2))] =
        [OutEvent.packet CMD_DELTA 12 payload]) ∧
    (CMD_DELTA = CMD_PATCH → ∃ code,
      sends [OutEvent.packet CMD_DELTA 12
          (WStr.ofOps (computeDelta [0, 1, 2, 3] [] 2))] =
        [OutEvent.status 12 code])) :=
  ⟨rfl,
    c10_response_tags env1 CMD_DELTA 12
      (Msg.mk [WStr.ofPath [Seg.name fNameS], WStr.ofSigs []])
      [OutEvent.packet CMD_DELTA 12
        (WStr.ofOps (computeDelta [0, 1, 2, 3] [] 2))] rfl⟩
